import Mathlib

/-!
# Verification of the libyamlconf hierarchical YAML loader

This file gives a shallow embedding of `libyamlconf/yaml.py` (the layered
load / resolve / merge engine) and proves properties of it.

Modelling conventions:
* Parsed YAML data is the closed variant type `Value`
  (scalar / mapping / sequence).  Python `dict`s are association lists with
  insertion-order semantics: lookup finds the first matching key, assignment
  replaces the first occurrence in place or appends, deletion removes the
  first occurrence.  Real Python dicts never hold a duplicate key, so on all
  states reachable from parsing these operations agree with dict semantics.
* Python `float` scalars are not represented (no claim touches them); the
  scalar constructors cover `str`, `int`, `bool` (a subclass of `int` in
  Python, hence a "simple type" for the merge) and `pathlib.Path`.
* Dynamic typing errors that CPython would raise (`TypeError`, `KeyError`,
  `IndexError`) are modelled as explicit error values, as is the
  `InvalidConfiguration` exception raised by `_invalid_config`.
* The file system is a finite map from paths to the parsed document content;
  `_load_yaml` succeeds exactly on its domain.
* `pathlib.PurePosixPath` is modelled as an `absolute` flag plus the list of
  components (`parts` without the root); construction from a string drops
  empty and `"."` components, `parent` drops the last component, and `/`
  replaces the left operand when the right one is absolute.  Path equality is
  structural, matching pathlib's purely lexical equality (no disk
  canonicalisation).
* The recursion of `_recursive_load` is fuel-indexed; running out of fuel is
  the distinguished error `Err.outOfFuel`, which no Python run produces.
-/

/-- Association-list lookup: first entry with the given key (Python `d[k]` /
`k in d` on dicts). -/
def alookup {κ α : Type} [DecidableEq κ] : List (κ × α) → κ → Option α
  | [], _ => none
  | kv :: rest, k => if kv.1 = k then some kv.2 else alookup rest k

/-- Association-list write (Python `d[k] = v`): replace the first occurrence
in place, else append. -/
def aset {κ α : Type} [DecidableEq κ] : List (κ × α) → κ → α → List (κ × α)
  | [], k, v => [(k, v)]
  | kv :: rest, k, v => if kv.1 = k then (k, v) :: rest else kv :: aset rest k v

/-- Association-list delete (Python `del d[k]`): remove the entries of the
key (a real dict holds at most one). -/
def aerase {κ α : Type} [DecidableEq κ] : List (κ × α) → κ → List (κ × α)
  | [], _ => []
  | kv :: rest, k => if kv.1 = k then aerase rest k else kv :: aerase rest k

/-- Model of `pathlib.PurePosixPath`: absolute flag and components. -/
structure PyPath where
  absolute : Bool
  components : List String
deriving DecidableEq, Repr

/-- Split a character list on `'/'`, keeping empty pieces (Python
`s.split("/")`). -/
def splitSlash : List Char → List Char → List String
  | [], acc => [String.mk acc.reverse]
  | c :: rest, acc =>
    if c = '/' then String.mk acc.reverse :: splitSlash rest []
    else splitSlash rest (c :: acc)

/-- `Path(s)`: split on `/`, drop empty and `"."` components, record whether
the string is absolute. -/
def parsePath (s : String) : PyPath :=
  ⟨(match s.data with
    | '/' :: _ => true
    | _ => false),
   (splitSlash s.data []).filter (fun c => !(c == "" || c == "."))⟩

/-- `p.parent`: drop the last component (`Path(".").parent == Path(".")`,
`Path("/").parent == Path("/")`). -/
def pathParent (p : PyPath) : PyPath :=
  ⟨p.absolute, p.components.dropLast⟩

/-- `a / b`: if `b` is absolute it replaces `a`, else components concatenate. -/
def pathJoin (a b : PyPath) : PyPath :=
  if b.absolute then b else ⟨a.absolute, a.components ++ b.components⟩

/-- Generic parsed YAML tree: the values `yaml.safe_load` can produce that the
loader handles (minus `float`, see the header comment). -/
inductive Value : Type where
  | vstr : String → Value
  | vint : Int → Value
  | vbool : Bool → Value
  | vnull : Value
  | vpath : PyPath → Value
  | vmap : List (String × Value) → Value
  | vlist : List Value → Value

/-- Errors: the library's own `InvalidConfiguration`, the CPython exceptions
the dynamic code can raise, and the fuel artifact of the embedding. -/
inductive Err : Type where
  | invalidConfiguration : String → Err
  | typeError : Err
  | keyError : Err
  | indexError : Err
  | outOfFuel : Err
deriving DecidableEq, Repr

/-- Does this result carry the library's `InvalidConfiguration` exception? -/
def isInvalidConfig {α : Type} : Except Err α → Bool
  | .error (.invalidConfiguration _) => true
  | _ => false

/-- `isinstance(v, dict)`. -/
def Value.isMap : Value → Bool
  | .vmap _ => true
  | _ => false

/-- `isinstance(v, list)`. -/
def Value.isList : Value → Bool
  | .vlist _ => true
  | _ => false

/-- `isinstance(v, str)`. -/
def Value.isStr : Value → Bool
  | .vstr _ => true
  | _ => false

/-- The "simple type" test of `_merge_values`:
`isinstance(v, str) or isinstance(v, int) or isinstance(v, float) or
isinstance(v, Path)` — note Python `bool` is a subclass of `int`. -/
def Value.isScalar : Value → Bool
  | .vstr _ => true
  | .vint _ => true
  | .vbool _ => true
  | .vpath _ => true
  | _ => false

/-- Is `pat` a contiguous sublist of `cs`? -/
def subListScan (pat : List Char) : List Char → Bool
  | [] => pat.isPrefixOf []
  | c :: rest => pat.isPrefixOf (c :: rest) || subListScan pat rest

/-- Python substring test `sub in s` (always true for the empty string). -/
def strContainsSub (s sub : String) : Bool :=
  subListScan sub.data s.data

/-- Python `k in v` for a string `k`: dict key membership, list element
membership, substring test on strings; `TypeError` otherwise. -/
def pyContains (v : Value) (k : String) : Except Err Bool :=
  match v with
  | .vmap m => .ok (alookup m k).isSome
  | .vlist xs => .ok (xs.any fun x => match x with
      | .vstr s => s == k
      | _ => false)
  | .vstr s => .ok (strContainsSub s k)
  | _ => .error .typeError

/-- Python `v[k]` for a string `k`: dict lookup (`KeyError` when absent);
`TypeError` on every other value. -/
def pyIndex (v : Value) (k : String) : Except Err Value :=
  match v with
  | .vmap m =>
    match alookup m k with
    | some x => .ok x
    | none => .error .keyError
  | _ => .error .typeError

/-- Python `v[k] = x` for a string `k`: dict write; `TypeError` otherwise. -/
def pySetItem (v : Value) (k : String) (x : Value) : Except Err Value :=
  match v with
  | .vmap m => .ok (.vmap (aset m k x))
  | _ => .error .typeError

/-- Python `del v[k]` for a string `k`: dict delete (`KeyError` when absent);
`TypeError` otherwise. -/
def pyDelItem (v : Value) (k : String) : Except Err Value :=
  match v with
  | .vmap m =>
    match alookup m k with
    | some _ => .ok (.vmap (aerase m k))
    | none => .error .keyError
  | _ => .error .typeError

/-- `_contains_path`: walk the key path, `data = data[key]` at each step. -/
def containsPath : Value → List String → Except Err Bool
  | _, [] => .ok true
  | v, k :: ks =>
    match pyContains v k with
    | .error e => .error e
    | .ok false => .ok false
    | .ok true =>
      match pyIndex v k with
      | .error e => .error e
      | .ok child => containsPath child ks

/-- `_get_value_for_path`: walk the key path and return the value; the
function's `None` result for a missing path is the Python `None` object,
i.e. `Value.vnull`. -/
def getValueForPath : Value → List String → Except Err Value
  | v, [] => .ok v
  | v, k :: ks =>
    match pyContains v k with
    | .error e => .error e
    | .ok false => .ok .vnull
    | .ok true =>
      match pyIndex v k with
      | .error e => .error e
      | .ok child => getValueForPath child ks

/-- `_set_value_for_path`: walk `path[:-1]`, then assign at `path[-1]` if
present.  The boolean is the Python return value; the returned tree is the
(functionally rebuilt) mutated input. -/
def setValueForPath (v : Value) (path : List String) (newVal : Value) :
    Except Err (Value × Bool) :=
  match path with
  | [] => .error .indexError
  | [last] =>
    match pyContains v last with
    | .error e => .error e
    | .ok false => .ok (v, false)
    | .ok true =>
      match v with
      | .vmap m => .ok (.vmap (aset m last newVal), true)
      | _ => .error .typeError
  | k :: rest =>
    match pyContains v k with
    | .error e => .error e
    | .ok false => .ok (v, false)
    | .ok true =>
      match pyIndex v k with
      | .error e => .error e
      | .ok child =>
        match setValueForPath child rest newVal with
        | .error e => .error e
        | .ok (child', b) =>
          match v with
          | .vmap m => .ok (.vmap (aset m k child'), b)
          | _ => .ok (v, b)

/-- The dict/dict branch of `_merge_values`:
`for key in new.keys(): current[key] = new[key]` (`new[key]` is the entry's
own value since a Python dict never repeats a key). -/
def dictUpdate (current new : List (String × Value)) : List (String × Value) :=
  new.foldl (fun acc kv => aset acc kv.1 kv.2) current

/-- `_merge_values`: simple types are overwritten by `new` (with no type
check on `new`), dicts merge key-wise, lists concatenate, and every other
`current` type raises `InvalidConfiguration`. -/
def mergeValues (current new : Value) : Except Err Value :=
  match current with
  | .vstr _ | .vint _ | .vbool _ | .vpath _ => .ok new
  | .vmap m =>
    match new with
    | .vmap n => .ok (.vmap (dictUpdate m n))
    | _ => .error (.invalidConfiguration "Unsupported types for merge")
  | .vlist xs =>
    match new with
    | .vlist ys => .ok (.vlist (xs ++ ys))
    | _ => .error (.invalidConfiguration "Unsupported types for merge")
  | .vnull => .error (.invalidConfiguration "Unsupported types for merge")

/-- The transient state of one `YamlLoader.load` call: the ordered layer
list `self._layers`, the tree map `self._layer_data`, and a counter for the
`logging.warning` calls emitted when a layer is skipped. -/
structure LoadState where
  layers : List PyPath
  layerData : List (PyPath × Value)
  warnings : Nat

/-- State after `_reset`. -/
def initState : LoadState := ⟨[], [], 0⟩

/-- The file system seen through `_load_yaml`: parsed content per existing
file; `_load_yaml` raises `InvalidConfiguration` outside the domain. -/
def FS : Type := List (PyPath × Value)

/-- `YamlLoader._recursive_load`, fuel-indexed.  Already-seen layers are
skipped with a warning; otherwise the file is appended to the layer list,
loaded (`InvalidConfiguration` when missing), required to be a mapping at
the root, recorded in the layer map, and its parent reference(s) are
recursed into, a single string parent first being wrapped in `Path` and a
parent list being joined entry by entry (a non-string entry is a
`TypeError`, raised by `file.parent / parent_file`). -/
def recursiveLoad (fs : FS) (pk : String) : Nat → PyPath → LoadState →
    Except Err LoadState
  | 0, _, _ => .error .outOfFuel
  | fuel + 1, file, st =>
    if file ∈ st.layers then
      .ok { st with warnings := st.warnings + 1 }
    else
      let st1 : LoadState := { st with layers := st.layers ++ [file] }
      match alookup fs file with
      | none => .error (.invalidConfiguration "Config file does not exist")
      | some data =>
        match data with
        | .vmap m =>
          let st2 : LoadState := { st1 with layerData := aset st1.layerData file data }
          match alookup m pk with
          | none => .ok st2
          | some (.vstr s) =>
            recursiveLoad fs pk fuel (pathJoin (pathParent file) (parsePath s)) st2
          | some (.vlist ps) =>
            ps.foldlM (fun stAcc p =>
              match p with
              | .vstr s =>
                recursiveLoad fs pk fuel (pathJoin (pathParent file) (parsePath s)) stAcc
              | _ => .error .typeError) st2
          | some _ => .error (.invalidConfiguration "Unsupported value for parent key")
        | _ => .error (.invalidConfiguration "Unsupported root node type")

/-- The body of the inner loop of `YamlLoader._resolve_relative_paths` for
one layer and one configured key path: if the path exists in the layer's
tree, read the value, join it onto the layer's own directory and write it
back at the same path. -/
def resolveLayerPath (layer : PyPath) (data : Value) (path : List String) :
    Except Err Value :=
  match containsPath data path with
  | .error e => .error e
  | .ok false => .ok data
  | .ok true =>
    match getValueForPath data path with
    | .error e => .error e
    | .ok file =>
      match file with
      | .vstr s =>
        match setValueForPath data path (.vpath (pathJoin (pathParent layer) (parsePath s))) with
        | .error e => .error e
        | .ok (data', _) => .ok data'
      | .vpath p =>
        match setValueForPath data path (.vpath (pathJoin (pathParent layer) p)) with
        | .error e => .error e
        | .ok (data', _) => .ok data'
      | _ => .error .typeError

/-- `YamlLoader._resolve_relative_paths`: for every discovered layer in
order, rewrite every configured key path in that layer's own tree. -/
def resolveRelativePaths (relKeys : List (List String)) (layers : List PyPath)
    (layerData : List (PyPath × Value)) : Except Err (List (PyPath × Value)) :=
  layers.foldlM (fun ld layer =>
    match alookup ld layer with
    | none => .error .keyError
    | some data =>
      match relKeys.foldlM (fun d path => resolveLayerPath layer d path) data with
      | .error e => .error e
      | .ok data' => .ok (aset ld layer data')) layerData

/-- The inner loop of `YamlLoader._merge_config_data` folding one layer's
tree `data` into the running result `self._data`: the parent key is skipped,
an absent key is copied, a present key is merged via `_merge_values` with
the layer's value (`data[key]`) as the new operand. -/
def mergeLayer (pk : String) (res : Value) (data : List (String × Value)) :
    Except Err Value :=
  data.foldlM (fun res kv =>
    if kv.1 = pk then .ok res
    else
      match pyContains res kv.1 with
      | .error e => .error e
      | .ok false => pySetItem res kv.1 kv.2
      | .ok true =>
        match pyIndex res kv.1 with
        | .error e => .error e
        | .ok cur =>
          match pyIndex (.vmap data) kv.1 with
          | .error e => .error e
          | .ok dv =>
            match mergeValues cur dv with
            | .error e => .error e
            | .ok merged => pySetItem res kv.1 merged) res

/-- `YamlLoader._merge_config_data`: seed `self._data` with the tree of the
last discovered layer, delete the parent key from it if present,
short-circuit for a single layer, and otherwise fold the remaining layers
in reverse discovery order (the reversed copy of the layer list with its
first element dropped). -/
def mergeConfigData (pk : String) (layers : List PyPath)
    (layerData : List (PyPath × Value)) : Except Err Value :=
  match layers.getLast? with
  | none => .error .indexError
  | some last =>
    match alookup layerData last with
    | none => .error .keyError
    | some seedV =>
      match pyContains seedV pk with
      | .error e => .error e
      | .ok b =>
        match (if b then pyDelItem seedV pk else .ok seedV) with
        | .error e => .error e
        | .ok d0 =>
          if layers.length ≤ 1 then .ok d0
          else
            (layers.reverse.drop 1).foldlM (fun res layer =>
              match alookup layerData layer with
              | none => .error .keyError
              | some ld =>
                match ld with
                | .vmap data => mergeLayer pk res data
                | _ => .error .typeError) d0

/-- `YamlLoader.load`: reset, discover, resolve relative paths, merge. -/
def load (pk : String) (relKeys : List (List String)) (fs : FS) (fuel : Nat)
    (file : PyPath) : Except Err Value :=
  match recursiveLoad fs pk fuel file initState with
  | .error e => .error e
  | .ok st =>
    match resolveRelativePaths relKeys st.layers st.layerData with
    | .error e => .error e
    | .ok ld => mergeConfigData pk st.layers ld

/-- The invariant maintained by `_recursive_load`: the layer list holds no
duplicates and has exactly the keys of the layer map. -/
def InvSt (st : LoadState) : Prop :=
  st.layers.Nodup ∧ ∀ p, p ∈ st.layers ↔ (alookup st.layerData p).isSome

/-- Does the top level of a tree contain the key (false for non-mappings)? -/
def topHas (v : Value) (k : String) : Bool :=
  match v with
  | .vmap m => (alookup m k).isSome
  | _ => false

/-- Spec 4.3, layer fold: for each key of the layer `L` except the
parent-reference key, copy the value into the result `R` if the key is
absent, else merge the existing value with the value of `L` by the
type-pair rule, the value of `L` being the new operand. -/
def specMergeLayer (pk : String) (res tree : List (String × Value)) :
    Except Err (List (String × Value)) :=
  tree.foldlM (fun res kv =>
    if kv.1 = pk then .ok res
    else
      match alookup res kv.1 with
      | none => .ok (aset res kv.1 kv.2)
      | some cur =>
        match mergeValues cur kv.2 with
        | .error e => .error e
        | .ok merged => .ok (aset res kv.1 merged)) res

/-- Spec 4.3, precedence rule: seed with the tree of the last element of
the ordered discovery list minus the parent key, then fold the remaining
layers in reverse discovery order excluding the seed. -/
def specMergeHierarchy (pk : String) (layers : List PyPath)
    (layerData : List (PyPath × Value)) : Except Err (List (String × Value)) :=
  match layers.getLast? with
  | none => .error .indexError
  | some last =>
    (layers.reverse.drop 1).foldlM
      (fun res layer =>
        match alookup layerData layer with
        | some (.vmap tree) => specMergeLayer pk res tree
        | _ => .error .typeError)
      (aerase (match alookup layerData last with
               | some (.vmap m) => m
               | _ => []) pk)

/-- Decidable well-formedness of a hierarchy: every layer has a mapping
tree without repeated keys. -/
def goodLayers (layerData : List (PyPath × Value)) (layers : List PyPath) : Bool :=
  layers.all (fun l =>
    match alookup layerData l with
    | some (.vmap m) => decide (m.map Prod.fst).Nodup
    | _ => false)

/-! ## A small corpus of concrete layers for the evaluations -/

/-- Example path `a.yml`. -/
def exA : PyPath := ⟨false, ["a.yml"]⟩

/-- Example path `b.yml`. -/
def exB : PyPath := ⟨false, ["b.yml"]⟩

/-- Example path `c.yml`. -/
def exC : PyPath := ⟨false, ["c.yml"]⟩

/-- Example path `d.yml`. -/
def exD : PyPath := ⟨false, ["d.yml"]⟩

/-- Diamond root: inherits `b.yml` then `c.yml`. -/
def exTreeA : List (String × Value) :=
  [("base", .vlist [.vstr "b.yml", .vstr "c.yml"]), ("xs", .vlist [.vint 3])]

/-- Left parent: inherits `d.yml`. -/
def exTreeB : List (String × Value) :=
  [("base", .vstr "d.yml"), ("xs", .vlist [.vint 1])]

/-- Right parent: also inherits `d.yml`. -/
def exTreeC : List (String × Value) :=
  [("base", .vstr "d.yml"), ("xs", .vlist [.vint 2])]

/-- Shared grandparent. -/
def exTreeD : List (String × Value) := [("xs", .vlist [.vint 0])]

/-- A diamond-inheritance file system. -/
def diamondFS : FS :=
  [(exA, .vmap exTreeA), (exB, .vmap exTreeB),
   (exC, .vmap exTreeC), (exD, .vmap exTreeD)]

/-- A single-file file system. -/
def exSingleFS : FS := [(exD, .vmap exTreeD)]

/-- A two-layer tree map for the merge examples. -/
def exLd : List (PyPath × Value) :=
  [(exA, .vmap [("k", .vint 1)]), (exB, .vmap [("k", .vint 2)])]

/-! ## Association-list lemmas -/

theorem alookup_aset {κ α : Type} [DecidableEq κ] (k k' : κ) (v : α) :
    ∀ m : List (κ × α),
      alookup (aset m k v) k' = if k' = k then some v else alookup m k' := by
  intro m
  induction m with
  | nil =>
    by_cases h : k' = k
    · simp [aset, alookup, h]
    · simp [aset, alookup, h, Ne.symm h]
  | cons kv rest ih =>
    obtain ⟨a, b⟩ := kv
    by_cases ha : a = k
    · by_cases h : k' = k
      · simp [aset, alookup, ha, h]
      · simp [aset, alookup, ha, h, Ne.symm h]
    · by_cases h : k' = k
      · subst h; simp [aset, alookup, ha, ih]
      · simp [aset, alookup, ha, h, Ne.symm h, ih]

theorem aset_lookup_self {κ α : Type} [DecidableEq κ] (k : κ) (c : α) :
    ∀ m : List (κ × α), alookup m k = some c → aset m k c = m := by
  intro m
  induction m with
  | nil => intro h; simp [alookup] at h
  | cons kv rest ih =>
    obtain ⟨a, b⟩ := kv
    intro h
    by_cases ha : a = k
    · subst ha
      simp [alookup] at h
      simp [aset, h]
    · simp [alookup, ha] at h
      simp [aset, ha, ih h]

theorem alookup_aerase_self {κ α : Type} [DecidableEq κ] (k : κ) :
    ∀ m : List (κ × α), alookup (aerase m k) k = none := by
  intro m
  induction m with
  | nil => rfl
  | cons kv rest ih =>
    obtain ⟨a, b⟩ := kv
    by_cases ha : a = k
    · simp [aerase, ha, ih]
    · simp [alookup, aerase, ha, ih]

theorem aerase_not_mem {κ α : Type} [DecidableEq κ] (k : κ) :
    ∀ m : List (κ × α), alookup m k = none → aerase m k = m := by
  intro m
  induction m with
  | nil => intro _; rfl
  | cons kv rest ih =>
    obtain ⟨a, b⟩ := kv
    intro h
    by_cases ha : a = k
    · simp [alookup, ha] at h
    · simp [alookup, ha] at h
      simp [aerase, ha, ih h]

/-! ## Path-utility lemmas -/

theorem pyIndex_ok (v : Value) (k : String) (child : Value)
    (h : pyIndex v k = .ok child) :
    ∃ m, v = .vmap m ∧ alookup m k = some child := by
  cases v with
  | vmap m =>
    refine ⟨m, rfl, ?_⟩
    simp only [pyIndex] at h
    cases hl : alookup m k with
    | none => rw [hl] at h; cases h
    | some x => rw [hl] at h; cases h; rfl
  | vstr s => simp [pyIndex] at h
  | vint n => simp [pyIndex] at h
  | vbool b => simp [pyIndex] at h
  | vnull => simp [pyIndex] at h
  | vpath p => simp [pyIndex] at h
  | vlist xs => simp [pyIndex] at h

/-- A `False` return of `_set_value_for_path` leaves the tree unchanged. -/
theorem set_false_unchanged :
    ∀ (path : List String) (v newVal d' : Value),
      setValueForPath v path newVal = .ok (d', false) → d' = v := by
  intro path
  induction path with
  | nil => intro v newVal d' h; simp [setValueForPath] at h
  | cons k rest ih =>
    intro v newVal d' h
    cases rest with
    | nil =>
      simp only [setValueForPath] at h
      cases hpc : pyContains v k with
      | error e => simp [hpc] at h
      | ok b =>
        cases b with
        | false =>
          simp only [hpc] at h
          cases h; rfl
        | true =>
          simp only [hpc] at h
          cases v <;> simp at h
    | cons k2 rest2 =>
      simp only [setValueForPath] at h
      cases hpc : pyContains v k with
      | error e => simp [hpc] at h
      | ok b =>
        cases b with
        | false =>
          simp only [hpc] at h
          cases h; rfl
        | true =>
          simp only [hpc] at h
          cases hpi : pyIndex v k with
          | error e => simp [hpi] at h
          | ok child =>
            simp only [hpi] at h
            cases hset : setValueForPath child (k2 :: rest2) newVal with
            | error e => simp [hset] at h
            | ok pr =>
              obtain ⟨child', b'⟩ := pr
              simp only [hset] at h
              obtain ⟨m, hvm, hl⟩ := pyIndex_ok v k child hpi
              subst hvm
              simp only at h
              cases b' with
              | true => cases h
              | false =>
                have hc := ih child newVal child' hset
                rw [hc] at h
                cases h
                rw [aset_lookup_self k child m hl]

/-- A `True` return of `_set_value_for_path` means the walked path already
existed: `_contains_path` accepts it. -/
theorem set_true_contains :
    ∀ (path : List String) (v newVal d' : Value),
      setValueForPath v path newVal = .ok (d', true) → containsPath v path = .ok true := by
  intro path
  induction path with
  | nil => intro v newVal d' h; simp [setValueForPath] at h
  | cons k rest ih =>
    intro v newVal d' h
    cases rest with
    | nil =>
      simp only [setValueForPath] at h
      cases hpc : pyContains v k with
      | error e => simp [hpc] at h
      | ok b =>
        cases b with
        | false => simp only [hpc] at h; cases h
        | true =>
          simp only [hpc] at h
          cases v with
          | vmap m =>
            have hs : (alookup m k).isSome = true := by
              simpa [pyContains] using hpc
            obtain ⟨x, hx⟩ := Option.isSome_iff_exists.mp hs
            simp [containsPath, pyContains, pyIndex, hx]
          | vstr s => simp at h
          | vint n => simp at h
          | vbool b2 => simp at h
          | vnull => simp at h
          | vpath p => simp at h
          | vlist xs => simp at h
    | cons k2 rest2 =>
      simp only [setValueForPath] at h
      cases hpc : pyContains v k with
      | error e => simp [hpc] at h
      | ok b =>
        cases b with
        | false => simp only [hpc] at h; cases h
        | true =>
          simp only [hpc] at h
          cases hpi : pyIndex v k with
          | error e => simp [hpi] at h
          | ok child =>
            simp only [hpi] at h
            cases hset : setValueForPath child (k2 :: rest2) newVal with
            | error e => simp [hset] at h
            | ok pr =>
              obtain ⟨child', b'⟩ := pr
              simp only [hset] at h
              cases b' with
              | false =>
                obtain ⟨m, hvm, hl⟩ := pyIndex_ok v k child hpi
                subst hvm
                simp only at h
                cases h
              | true =>
                simp only [containsPath, hpc, hpi]
                exact ih child newVal child' hset

/-- Unfolding equation of `getValueForPath` for a nonempty path. -/
theorem getValueForPath_cons (v : Value) (k : String) (ks : List String) :
    getValueForPath v (k :: ks) =
      match pyContains v k with
      | .error e => .error e
      | .ok false => .ok .vnull
      | .ok true =>
        match pyIndex v k with
        | .error e => .error e
        | .ok child => getValueForPath child ks := rfl

/-- After a `True` write, reading the same path yields the written value. -/
theorem set_true_get :
    ∀ (path : List String) (v newVal d' : Value),
      setValueForPath v path newVal = .ok (d', true) →
        getValueForPath d' path = .ok newVal := by
  intro path
  induction path with
  | nil => intro v newVal d' h; simp [setValueForPath] at h
  | cons k rest ih =>
    intro v newVal d' h
    cases rest with
    | nil =>
      simp only [setValueForPath] at h
      cases hpc : pyContains v k with
      | error e => simp [hpc] at h
      | ok b =>
        cases b with
        | false => simp only [hpc] at h; cases h
        | true =>
          simp only [hpc] at h
          cases v with
          | vmap m =>
            cases h
            simp [getValueForPath, pyContains, pyIndex, alookup_aset]
          | vstr s => simp at h
          | vint n => simp at h
          | vbool b2 => simp at h
          | vnull => simp at h
          | vpath p => simp at h
          | vlist xs => simp at h
    | cons k2 rest2 =>
      simp only [setValueForPath] at h
      cases hpc : pyContains v k with
      | error e => simp [hpc] at h
      | ok b =>
        cases b with
        | false => simp only [hpc] at h; cases h
        | true =>
          simp only [hpc] at h
          cases hpi : pyIndex v k with
          | error e => simp [hpi] at h
          | ok child =>
            simp only [hpi] at h
            cases hset : setValueForPath child (k2 :: rest2) newVal with
            | error e => simp [hset] at h
            | ok pr =>
              obtain ⟨child', b'⟩ := pr
              simp only [hset] at h
              obtain ⟨m, hvm, hl⟩ := pyIndex_ok v k child hpi
              subst hvm
              simp only at h
              cases b' with
              | false => cases h
              | true =>
                cases h
                have hg := ih child newVal child' hset
                have hpc2 : pyContains (Value.vmap (aset m k child')) k = .ok true := by
                  simp [pyContains, alookup_aset]
                have hpi2 : pyIndex (Value.vmap (aset m k child')) k = .ok child' := by
                  simp [pyIndex, alookup_aset]
                rw [getValueForPath_cons]
                simp only [hpc2, hpi2]
                exact hg

/-- When `_contains_path` accepts a nonempty path, `_set_value_for_path`
succeeds and returns `True`. -/
theorem contains_true_set :
    ∀ (path : List String) (v newVal : Value), path ≠ [] →
      containsPath v path = .ok true →
        ∃ d', setValueForPath v path newVal = .ok (d', true) := by
  intro path
  induction path with
  | nil => intro v newVal hne _; exact absurd rfl hne
  | cons k rest ih =>
    intro v newVal _ h
    simp only [containsPath] at h
    cases hpc : pyContains v k with
    | error e => simp [hpc] at h
    | ok b =>
      cases b with
      | false => simp only [hpc] at h; cases h
      | true =>
        simp only [hpc] at h
        cases hpi : pyIndex v k with
        | error e => simp [hpi] at h
        | ok child =>
          simp only [hpi] at h
          obtain ⟨m, hvm, hl⟩ := pyIndex_ok v k child hpi
          subst hvm
          cases rest with
          | nil =>
            exact ⟨.vmap (aset m k newVal), by simp [setValueForPath, hpc]⟩
          | cons k2 rest2 =>
            obtain ⟨child', hset⟩ := ih child newVal (by simp) h
            exact ⟨.vmap (aset m k child'), by simp [setValueForPath, hpc, hpi, hset]⟩

/-- When `_contains_path` rejects a nonempty path, `_set_value_for_path`
returns `False` and leaves the tree unchanged. -/
theorem contains_false_set :
    ∀ (path : List String) (v newVal : Value), path ≠ [] →
      containsPath v path = .ok false →
        setValueForPath v path newVal = .ok (v, false) := by
  intro path
  induction path with
  | nil => intro v newVal hne _; exact absurd rfl hne
  | cons k rest ih =>
    intro v newVal _ h
    simp only [containsPath] at h
    cases hpc : pyContains v k with
    | error e => simp [hpc] at h
    | ok b =>
      cases b with
      | false =>
        cases rest with
        | nil => simp [setValueForPath, hpc]
        | cons k2 rest2 => simp [setValueForPath, hpc]
      | true =>
        simp only [hpc] at h
        cases hpi : pyIndex v k with
        | error e => simp [hpi] at h
        | ok child =>
          simp only [hpi] at h
          obtain ⟨m, hvm, hl⟩ := pyIndex_ok v k child hpi
          subst hvm
          cases rest with
          | nil => simp [containsPath] at h
          | cons k2 rest2 =>
            have hset := ih child newVal (by simp) h
            simp [setValueForPath, hpc, hpi, hset, aset_lookup_self k child m hl]

/-! ## Invariants of the recursive discovery -/

/-- `pure` on `Except` is `ok`. -/
theorem except_pure_eq {σ : Type} (a : σ) : (pure a : Except Err σ) = .ok a := rfl

/-- Binding an `Except` error short-circuits. -/
theorem except_bind_error {σ τ : Type} (e : Err) (f : σ → Except Err τ) :
    ((Except.error e : Except Err σ) >>= f) = .error e := rfl

/-- Binding an `Except` success applies the continuation. -/
theorem except_bind_ok {σ τ : Type} (a : σ) (f : σ → Except Err τ) :
    ((Except.ok a : Except Err σ) >>= f) = f a := rfl

/-- Mapping over an `Except` error is the identity. -/
theorem except_map_error {σ τ : Type} (f : σ → τ) (e : Err) :
    Except.map f (Except.error e : Except Err σ) = .error e := rfl

/-- Mapping over an `Except` success applies the function. -/
theorem except_map_ok {σ τ : Type} (f : σ → τ) (a : σ) :
    Except.map f (Except.ok a : Except Err σ) = .ok (f a) := rfl

/-- Invariance of a predicate and accumulation of a transitive relation
along a successful `Except`-fold. -/
theorem foldlM_ok_inv {σ α : Type} (g : σ → α → Except Err σ) (P : σ → Prop)
    (R : σ → σ → Prop) (hrefl : ∀ s, R s s)
    (htrans : ∀ a b c, R a b → R b c → R a c)
    (hg : ∀ s a s', P s → g s a = .ok s' → P s' ∧ R s s') :
    ∀ (l : List α) (s s' : σ), P s → l.foldlM g s = .ok s' → P s' ∧ R s s' := by
  intro l
  induction l with
  | nil =>
    intro s s' hP h
    rw [List.foldlM_nil, except_pure_eq] at h
    cases h
    exact ⟨hP, hrefl s⟩
  | cons a l ih =>
    intro s s' hP h
    rw [List.foldlM_cons] at h
    cases hga : g s a with
    | error e => rw [hga, except_bind_error] at h; cases h
    | ok s1 =>
      rw [hga, except_bind_ok] at h
      have h1 := hg s a s1 hP hga
      have h2 := ih s1 s' h1.1 h
      exact ⟨h2.1, htrans s s1 s' h1.2 h2.2⟩

/-- `_recursive_load` preserves `InvSt`, only ever appends to the layer
list, and the first layer it appends is the file it was called on. -/
theorem recursiveLoad_inv (fs : FS) (pk : String) :
    ∀ (fuel : Nat) (file : PyPath) (st st' : LoadState), InvSt st →
      recursiveLoad fs pk fuel file st = .ok st' →
      InvSt st' ∧ ∃ ext, st'.layers = st.layers ++ ext ∧
        (file ∉ st.layers → ext.head? = some file) := by
  intro fuel
  induction fuel with
  | zero => intro file st st' _ h; simp [recursiveLoad] at h
  | succ fuel ih =>
    intro file st st' hInv h
    simp only [recursiveLoad] at h
    by_cases hmem : file ∈ st.layers
    · rw [if_pos hmem] at h
      cases h
      exact ⟨hInv, [], by simp, fun hn => absurd hmem hn⟩
    · rw [if_neg hmem] at h
      cases hfs : alookup fs file with
      | none => simp [hfs] at h
      | some data =>
        simp only [hfs] at h
        cases data with
        | vstr s => simp at h
        | vint n => simp at h
        | vbool b => simp at h
        | vnull => simp at h
        | vpath p => simp at h
        | vlist xs => simp at h
        | vmap m =>
          simp only at h
          have hInv2 : InvSt ⟨st.layers ++ [file],
              aset st.layerData file (.vmap m), st.warnings⟩ := by
            constructor
            · simp [List.nodup_append, hInv.1, hmem]
            · intro p
              by_cases hp : p = file
              · subst hp
                simp [alookup_aset]
              · simp [alookup_aset, hp, List.mem_append, hInv.2 p]
          cases hpk : alookup m pk with
          | none =>
            simp only [hpk] at h
            cases h
            exact ⟨hInv2, [file], rfl, fun _ => rfl⟩
          | some pv =>
            simp only [hpk] at h
            cases pv with
            | vint n => cases h
            | vbool b => cases h
            | vnull => cases h
            | vpath p => cases h
            | vmap m2 => cases h
            | vstr s =>
              have hrec := ih (pathJoin (pathParent file) (parsePath s))
                ⟨st.layers ++ [file], aset st.layerData file (.vmap m), st.warnings⟩
                st' hInv2 h
              obtain ⟨hInv3, ext2, heq, _⟩ := hrec
              refine ⟨hInv3, file :: ext2, ?_, fun _ => rfl⟩
              rw [heq]
              simp
            | vlist ps =>
              have hfold := foldlM_ok_inv
                (fun stAcc p =>
                  match p with
                  | .vstr s2 =>
                    recursiveLoad fs pk fuel (pathJoin (pathParent file) (parsePath s2)) stAcc
                  | _ => .error .typeError)
                InvSt
                (fun s1 s2 => ∃ e, s2.layers = s1.layers ++ e)
                (fun s1 => ⟨[], by simp⟩)
                (fun a b c hab hbc => by
                  obtain ⟨e1, h1⟩ := hab
                  obtain ⟨e2, h2⟩ := hbc
                  exact ⟨e1 ++ e2, by rw [h2, h1, List.append_assoc]⟩)
                (fun s1 a s2 hP hga => by
                  cases a with
                  | vstr s3 =>
                    have hr := ih (pathJoin (pathParent file) (parsePath s3)) s1 s2 hP hga
                    obtain ⟨hI, e, he, _⟩ := hr
                    exact ⟨hI, e, he⟩
                  | vint n => cases hga
                  | vbool b => cases hga
                  | vnull => cases hga
                  | vpath p => cases hga
                  | vmap m2 => cases hga
                  | vlist xs2 => cases hga)
                ps
                ⟨st.layers ++ [file], aset st.layerData file (.vmap m), st.warnings⟩
                st' hInv2 h
              obtain ⟨hInv3, ext2, heq⟩ := hfold
              refine ⟨hInv3, file :: ext2, ?_, fun _ => rfl⟩
              rw [heq]
              simp

/-! ## The merged result never holds the parent key at top level -/

/-- A dict write at a key other than `pk` cannot introduce `pk`. -/
theorem pySetItem_no_pk (r r' : Value) (k pk : String) (x : Value)
    (hkv : ¬ k = pk) (hP : topHas r pk = false)
    (h : pySetItem r k x = .ok r') : topHas r' pk = false := by
  cases r with
  | vmap m =>
    simp only [pySetItem] at h
    cases h
    have hne : ¬ pk = k := fun hh => hkv hh.symm
    simp only [topHas] at hP ⊢
    rw [alookup_aset]
    simpa [hne] using hP
  | vstr s => simp [pySetItem] at h
  | vint n => simp [pySetItem] at h
  | vbool b => simp [pySetItem] at h
  | vnull => simp [pySetItem] at h
  | vpath p => simp [pySetItem] at h
  | vlist xs => simp [pySetItem] at h

/-- Folding one layer into the running result never introduces the parent
key at top level. -/
theorem mergeLayer_no_pk (pk : String) (res res' : Value)
    (data : List (String × Value)) (hP : topHas res pk = false)
    (h : mergeLayer pk res data = .ok res') : topHas res' pk = false := by
  simp only [mergeLayer] at h
  refine (foldlM_ok_inv _ (fun r => topHas r pk = false) (fun _ _ => True)
    (fun _ => trivial) (fun _ _ _ _ _ => trivial) ?_ data res res' hP h).1
  intro r kv r' hPr hstep
  refine ⟨?_, trivial⟩
  by_cases hkv : kv.1 = pk
  · rw [if_pos hkv] at hstep
    cases hstep
    exact hPr
  · rw [if_neg hkv] at hstep
    cases hpc : pyContains r kv.1 with
    | error e => simp [hpc] at hstep
    | ok b =>
      cases b with
      | false =>
        simp only [hpc] at hstep
        exact pySetItem_no_pk r r' kv.1 pk kv.2 hkv hPr hstep
      | true =>
        simp only [hpc] at hstep
        cases hpi : pyIndex r kv.1 with
        | error e => simp [hpi] at hstep
        | ok cur =>
          simp only [hpi] at hstep
          cases hdv : pyIndex (.vmap data) kv.1 with
          | error e => simp [hdv] at hstep
          | ok dv =>
            simp only [hdv] at hstep
            cases hm : mergeValues cur dv with
            | error e => simp [hm] at hstep
            | ok merged =>
              simp only [hm] at hstep
              exact pySetItem_no_pk r r' kv.1 pk merged hkv hPr hstep

/-- A successful `_merge_config_data` never returns the parent key at the
top level of the merged tree. -/
theorem mergeConfigData_no_pk (pk : String) (layers : List PyPath)
    (layerData : List (PyPath × Value)) (d : Value)
    (h : mergeConfigData pk layers layerData = .ok d) : topHas d pk = false := by
  simp only [mergeConfigData] at h
  cases hlast : layers.getLast? with
  | none => simp [hlast] at h
  | some last =>
    simp only [hlast] at h
    cases hld : alookup layerData last with
    | none => simp [hld] at h
    | some seedV =>
      simp only [hld] at h
      cases hpcs : pyContains seedV pk with
      | error e => simp [hpcs] at h
      | ok b =>
        simp only [hpcs] at h
        have hd0 : ∀ d0, (if b then pyDelItem seedV pk else .ok seedV) = .ok d0 →
            topHas d0 pk = false := by
          intro d0 hdel
          cases b with
          | true =>
            rw [if_pos rfl] at hdel
            cases seedV with
            | vmap m =>
              simp only [pyDelItem] at hdel
              cases hmem : alookup m pk with
              | none => rw [hmem] at hdel; cases hdel
              | some x =>
                rw [hmem] at hdel
                cases hdel
                simp [topHas, alookup_aerase_self]
            | vstr s => simp [pyDelItem] at hdel
            | vint n => simp [pyDelItem] at hdel
            | vbool b2 => simp [pyDelItem] at hdel
            | vnull => simp [pyDelItem] at hdel
            | vpath p => simp [pyDelItem] at hdel
            | vlist xs => simp [pyDelItem] at hdel
          | false =>
            rw [if_neg (by simp)] at hdel
            cases hdel
            cases seedV with
            | vmap m =>
              simp only [pyContains, Except.ok.injEq] at hpcs
              simpa [topHas] using hpcs
            | vstr s => simp [topHas]
            | vint n => simp [pyContains] at hpcs
            | vbool b2 => simp [pyContains] at hpcs
            | vnull => simp [pyContains] at hpcs
            | vpath p => simp [pyContains] at hpcs
            | vlist xs => simp [topHas]
        cases hdel : (if b then pyDelItem seedV pk else .ok seedV) with
        | error e => rw [hdel] at h; cases h
        | ok d0 =>
          rw [hdel] at h
          simp only at h
          have hPd0 := hd0 d0 hdel
          by_cases hlen : layers.length ≤ 1
          · rw [if_pos hlen] at h
            cases h
            exact hPd0
          · rw [if_neg hlen] at h
            refine (foldlM_ok_inv _ (fun r => topHas r pk = false) (fun _ _ => True)
              (fun _ => trivial) (fun _ _ _ _ _ => trivial) ?_
              (layers.reverse.drop 1) d0 d hPd0 h).1
            intro r layer r' hPr hstep
            refine ⟨?_, trivial⟩
            cases hll : alookup layerData layer with
            | none => simp [hll] at hstep
            | some ld =>
              simp only [hll] at hstep
              cases ld with
              | vmap data => exact mergeLayer_no_pk pk r r' data hPr hstep
              | vstr s => simp at hstep
              | vint n => simp at hstep
              | vbool b2 => simp at hstep
              | vnull => simp at hstep
              | vpath p => simp at hstep
              | vlist xs => simp at hstep

/-- `_merge_config_data` on a single-layer hierarchy returns the seed tree
with the parent key removed. -/
theorem mergeConfigData_single (pk : String) (f : PyPath)
    (m : List (String × Value)) (layerData : List (PyPath × Value))
    (hld : alookup layerData f = some (.vmap m)) :
    mergeConfigData pk [f] layerData = .ok (.vmap (aerase m pk)) := by
  have hlast : ([f] : List PyPath).getLast? = some f := rfl
  simp only [mergeConfigData, hlast, hld]
  cases hmem : alookup m pk with
  | some x => simp [pyContains, pyDelItem, hmem]
  | none => simp [pyContains, pyDelItem, hmem, aerase_not_mem pk m hmem]

/-- A successful `load` never returns the parent key at top level. -/
theorem load_no_pk (pk : String) (relKeys : List (List String)) (fs : FS)
    (fuel : Nat) (file : PyPath) (d : Value)
    (h : load pk relKeys fs fuel file = .ok d) : topHas d pk = false := by
  simp only [load] at h
  cases h1 : recursiveLoad fs pk fuel file initState with
  | error e => simp [h1] at h
  | ok st =>
    simp only [h1] at h
    cases h2 : resolveRelativePaths relKeys st.layers st.layerData with
    | error e => simp [h2] at h
    | ok ld =>
      simp only [h2] at h
      exact mergeConfigData_no_pk pk st.layers ld d h

/-! ## The merge algorithm, reformulated in the words of the spec -/

/-- In a dict without repeated keys, every entry is what lookup finds. -/
theorem alookup_self_of_nodup {α : Type} :
    ∀ (data : List (String × α)), (data.map Prod.fst).Nodup →
      ∀ kv ∈ data, alookup data kv.1 = some kv.2 := by
  intro data
  induction data with
  | nil => intro _ kv h; cases h
  | cons a rest ih =>
    intro hnd kv hkv
    have hnd' : (∀ x, (a.1, x) ∉ rest) ∧ (rest.map Prod.fst).Nodup := by
      simpa using hnd
    cases hkv with
    | head => simp [alookup]
    | tail _ hmem =>
      have ha : ¬ a.1 = kv.1 := by
        intro he
        apply hnd'.1 kv.2
        rw [he]
        simpa using hmem
      simp only [alookup, if_neg ha]
      exact ih hnd'.2 kv hmem

/-- The dynamically-typed layer fold of the code agrees with the spec fold
on mapping results, provided the layer has no repeated keys. -/
theorem mergeLayer_fold_spec (pk : String) (data : List (String × Value)) :
    ∀ (l : List (String × Value)),
      (∀ kv ∈ l, alookup data kv.1 = some kv.2) →
      ∀ res : List (String × Value),
        (l.foldlM (fun res kv =>
          if kv.1 = pk then .ok res
          else
            match pyContains res kv.1 with
            | .error e => .error e
            | .ok false => pySetItem res kv.1 kv.2
            | .ok true =>
              match pyIndex res kv.1 with
              | .error e => .error e
              | .ok cur =>
                match pyIndex (.vmap data) kv.1 with
                | .error e => .error e
                | .ok dv =>
                  match mergeValues cur dv with
                  | .error e => .error e
                  | .ok merged => pySetItem res kv.1 merged) (Value.vmap res))
        = (specMergeLayer pk res l).map .vmap := by
  intro l
  induction l with
  | nil =>
    intro _ res
    simp [specMergeLayer, List.foldlM_nil, except_pure_eq, Except.map]
  | cons kv l ih =>
    intro hl res
    have hkvdata : alookup data kv.1 = some kv.2 := hl kv (List.mem_cons_self kv l)
    have hltail : ∀ kv2 ∈ l, alookup data kv2.1 = some kv2.2 :=
      fun kv2 h2 => hl kv2 (List.mem_cons_of_mem kv h2)
    simp only [specMergeLayer] at ih ⊢
    rw [List.foldlM_cons, List.foldlM_cons]
    by_cases hkv : kv.1 = pk
    · rw [if_pos hkv, if_pos hkv, except_bind_ok, except_bind_ok]
      exact ih hltail res
    · rw [if_neg hkv, if_neg hkv]
      cases hres : alookup res kv.1 with
      | none =>
        have hpc : pyContains (Value.vmap res) kv.1 = .ok false := by
          simp [pyContains, hres]
        rw [hpc]
        simp only [pySetItem]
        rw [except_bind_ok, except_bind_ok]
        exact ih hltail (aset res kv.1 kv.2)
      | some cur =>
        have hpc : pyContains (Value.vmap res) kv.1 = .ok true := by
          simp [pyContains, hres]
        have hpi : pyIndex (Value.vmap res) kv.1 = .ok cur := by
          simp [pyIndex, hres]
        have hpd : pyIndex (Value.vmap data) kv.1 = .ok kv.2 := by
          simp [pyIndex, hkvdata]
        cases hm : mergeValues cur kv.2 with
        | error e =>
          simp only [hpc, hpi, hpd, hm, except_bind_error, except_map_error]
        | ok merged =>
          simp only [hpc, hpi, hpd, hm, pySetItem, except_bind_ok]
          exact ih hltail (aset res kv.1 merged)

/-- `mergeLayer` is the spec layer fold wrapped in `vmap`. -/
theorem mergeLayer_eq_spec (pk : String) (res data : List (String × Value))
    (hnd : (data.map Prod.fst).Nodup) :
    mergeLayer pk (.vmap res) data = (specMergeLayer pk res data).map .vmap := by
  have hdata := alookup_self_of_nodup data hnd
  simpa only [mergeLayer] using mergeLayer_fold_spec pk data data hdata res

/-- An `if` on a literal `true` Bool condition. -/
theorem bool_if_true {σ : Type} (A B : σ) : (if true then A else B) = A := rfl

/-- An `if` on a literal `false` Bool condition. -/
theorem bool_if_false {σ : Type} (A B : σ) : (if false then A else B) = B := rfl

/-- The outer layer fold of the code agrees with the spec fold, provided
every folded layer has a mapping tree without repeated keys. -/
theorem mergeOuter_fold_spec (pk : String) (layerData : List (PyPath × Value)) :
    ∀ (rest : List PyPath),
      (∀ l ∈ rest, ∃ m, alookup layerData l = some (.vmap m) ∧
        (m.map Prod.fst).Nodup) →
      ∀ res : List (String × Value),
        (rest.foldlM (fun res layer =>
          match alookup layerData layer with
          | none => .error .keyError
          | some ld =>
            match ld with
            | .vmap data => mergeLayer pk res data
            | _ => .error .typeError) (Value.vmap res))
        = (rest.foldlM (fun res layer =>
            match alookup layerData layer with
            | some (.vmap tree) => specMergeLayer pk res tree
            | _ => .error .typeError) res).map .vmap := by
  intro rest
  induction rest with
  | nil =>
    intro _ res
    simp [List.foldlM_nil, except_pure_eq, except_map_ok]
  | cons layer rest ih =>
    intro hlay res
    obtain ⟨m, hld, hnd⟩ := hlay layer (List.mem_cons_self layer rest)
    have hltail : ∀ l ∈ rest, ∃ m2, alookup layerData l = some (.vmap m2) ∧
        (m2.map Prod.fst).Nodup :=
      fun l hl => hlay l (List.mem_cons_of_mem layer hl)
    rw [List.foldlM_cons, List.foldlM_cons]
    simp only [hld]
    rw [mergeLayer_eq_spec pk res m hnd]
    cases hs : specMergeLayer pk res m with
    | error e =>
      simp only [hs, except_map_error, except_bind_error]
    | ok res1 =>
      simp only [hs, except_map_ok, except_bind_ok]
      exact ih hltail res1

/-- `_merge_config_data` is exactly the merge the spec describes whenever
every discovered layer has a mapping tree without repeated keys. -/
theorem mergeConfigData_eq_spec (pk : String) (layers : List PyPath)
    (layerData : List (PyPath × Value))
    (hlay : ∀ l ∈ layers, ∃ m, alookup layerData l = some (.vmap m) ∧
      (m.map Prod.fst).Nodup) :
    mergeConfigData pk layers layerData
      = (specMergeHierarchy pk layers layerData).map .vmap := by
  cases hlast : layers.getLast? with
  | none =>
    have hnil : layers = [] := List.getLast?_eq_none_iff.mp hlast
    subst hnil
    simp [mergeConfigData, specMergeHierarchy, except_map_error]
  | some last =>
    have hmem : last ∈ layers := List.mem_of_getLast?_eq_some hlast
    obtain ⟨m, hld, hnd⟩ := hlay last hmem
    have hsub : ∀ l ∈ layers.reverse.drop 1, ∃ m2,
        alookup layerData l = some (.vmap m2) ∧ (m2.map Prod.fst).Nodup :=
      fun l hl => hlay l (List.mem_reverse.mp (List.mem_of_mem_drop hl))
    simp only [mergeConfigData, specMergeHierarchy, hlast, hld]
    cases hmem2 : alookup m pk with
    | some x =>
      have hpcs : pyContains (Value.vmap m) pk = .ok true := by
        simp [pyContains, hmem2]
      have hdel : pyDelItem (Value.vmap m) pk = .ok (.vmap (aerase m pk)) := by
        simp [pyDelItem, hmem2]
      simp only [hpcs, bool_if_true, if_true, hdel]
      by_cases hlen : layers.length ≤ 1
      · rw [if_pos hlen]
        have hdrop : layers.reverse.drop 1 = [] :=
          List.drop_eq_nil_of_le (by simpa using hlen)
        rw [hdrop]
        simp [List.foldlM_nil, except_pure_eq, except_map_ok]
      · rw [if_neg hlen]
        exact mergeOuter_fold_spec pk layerData (layers.reverse.drop 1) hsub
          (aerase m pk)
    | none =>
      have hpcs : pyContains (Value.vmap m) pk = .ok false := by
        simp [pyContains, hmem2]
      have her : aerase m pk = m := aerase_not_mem pk m hmem2
      simp only [hpcs, bool_if_false, if_false, her]
      by_cases hlen : layers.length ≤ 1
      · rw [if_pos hlen]
        have hdrop : layers.reverse.drop 1 = [] :=
          List.drop_eq_nil_of_le (by simpa using hlen)
        rw [hdrop]
        simp [List.foldlM_nil, except_pure_eq, except_map_ok]
      · rw [if_neg hlen]
        exact mergeOuter_fold_spec pk layerData (layers.reverse.drop 1) hsub m

theorem goodLayers_sound (layerData : List (PyPath × Value))
    (layers : List PyPath) (hg : goodLayers layerData layers = true) :
    ∀ l ∈ layers, ∃ m, alookup layerData l = some (.vmap m) ∧
      (m.map Prod.fst).Nodup := by
  intro l hl
  have hx := List.all_eq_true.mp hg l hl
  cases hld : alookup layerData l with
  | none => rw [hld] at hx; cases hx
  | some v =>
    rw [hld] at hx
    cases v with
    | vmap m => exact ⟨m, rfl, of_decide_eq_true hx⟩
    | vstr s => cases hx
    | vint n => cases hx
    | vbool b => cases hx
    | vnull => cases hx
    | vpath p => cases hx
    | vlist xs => cases hx

/-- A key outside the key list of a dict has no lookup result. -/
theorem alookup_none_of_not_mem {α : Type} (k : String) :
    ∀ n : List (String × α), k ∉ n.map Prod.fst → alookup n k = none := by
  intro n
  induction n with
  | nil => intro _; rfl
  | cons a rest ih =>
    intro hk
    have h1 : ¬ a.1 = k := by
      intro he
      exact hk (by simp [← he])
    have h2 : k ∉ rest.map Prod.fst := fun hm => hk (by simp [hm])
    simp [alookup, h1, ih h2]

/-- Lookup after the dict/dict merge: keys of `new` win, the rest fall back
to `current`. -/
theorem alookup_dictUpdate (k : String) :
    ∀ (n m : List (String × Value)), (n.map Prod.fst).Nodup →
      alookup (dictUpdate m n) k =
        match alookup n k with
        | some v => some v
        | none => alookup m k := by
  intro n
  induction n with
  | nil => intro m _; rfl
  | cons kv n ih =>
    intro m hnd
    have hnd2 : (kv.1 :: n.map Prod.fst).Nodup := by simpa using hnd
    have h1 : kv.1 ∉ n.map Prod.fst := (List.nodup_cons.mp hnd2).1
    have h2 : (n.map Prod.fst).Nodup := (List.nodup_cons.mp hnd2).2
    have hstep : dictUpdate m (kv :: n) = dictUpdate (aset m kv.1 kv.2) n := rfl
    rw [hstep, ih (aset m kv.1 kv.2) h2]
    by_cases hk : kv.1 = k
    · subst hk
      have hnone : alookup n kv.1 = none := alookup_none_of_not_mem kv.1 n h1
      simp [alookup, hnone, alookup_aset]
    · have hk2 : ¬ k = kv.1 := fun hh => hk hh.symm
      simp [alookup, hk, hk2, alookup_aset]

/-! ## The claims -/

/-- C1: for every multi-layer hierarchy whose layers carry mapping trees
without repeated keys, `_merge_config_data` seeds the result with the tree
of the last element of the ordered discovery list, then folds the remaining
layers in reverse discovery order excluding the seed, copying each
non-parent key that is absent from the running result and merging a present
key by the type-pair rule with the layer value as the new operand — that
is, it computes exactly `specMergeHierarchy`, the merge stated in the words
of the spec. -/
theorem claim1_merge_algorithm (pk : String) (layers : List PyPath)
    (layerData : List (PyPath × Value)) (hmulti : 2 ≤ layers.length)
    (hgood : goodLayers layerData layers = true) :
    mergeConfigData pk layers layerData
      = (specMergeHierarchy pk layers layerData).map Value.vmap :=
  mergeConfigData_eq_spec pk layers layerData
    (goodLayers_sound layerData layers hgood)

theorem claim1_witness :
    mergeConfigData "base" [exA, exB] exLd
      = (specMergeHierarchy "base" [exA, exB] exLd).map Value.vmap :=
  claim1_merge_algorithm "base" [exA, exB] exLd (by decide) (by decide)

/-- C2 counterexample: merging the scalar current `"a"` with the sequence
new `[]` — a mismatched type pair — does not raise `InvalidConfiguration`:
it returns the sequence. -/
theorem claim2_counterexample :
    mergeValues (.vstr "a") (.vlist []) = .ok (.vlist []) ∧
    isInvalidConfig (mergeValues (.vstr "a") (.vlist [])) = false :=
  ⟨rfl, rfl⟩

/-- C2 (amended): merging raises `InvalidConfiguration` when the current
value is a mapping and the new value is not, when the current value is a
sequence and the new value is not, and when the current value is outside
the supported set (e.g. null); but when the current value is a scalar the
merge performs no type check on the new value and returns it unchanged. -/
theorem claim2_amended_type_rule (c n : Value) :
    (c.isMap = true → n.isMap = false →
      isInvalidConfig (mergeValues c n) = true) ∧
    (c.isList = true → n.isList = false →
      isInvalidConfig (mergeValues c n) = true) ∧
    (c = .vnull → isInvalidConfig (mergeValues c n) = true) ∧
    (c.isScalar = true → mergeValues c n = .ok n) := by
  cases c <;> cases n <;>
    simp [mergeValues, isInvalidConfig, Value.isMap, Value.isList, Value.isScalar]

theorem claim2_witness :
    isInvalidConfig (mergeValues (.vmap []) (.vint 1)) = true ∧
    isInvalidConfig (mergeValues (.vlist []) (.vint 1)) = true ∧
    isInvalidConfig (mergeValues .vnull (.vint 1)) = true ∧
    mergeValues (.vint 5) (.vlist [.vint 1]) = .ok (.vlist [.vint 1]) :=
  ⟨(claim2_amended_type_rule (.vmap []) (.vint 1)).1 rfl rfl,
   (claim2_amended_type_rule (.vlist []) (.vint 1)).2.1 rfl rfl,
   (claim2_amended_type_rule .vnull (.vint 1)).2.2.1 rfl,
   (claim2_amended_type_rule (.vint 5) (.vlist [.vint 1])).2.2.2 rfl⟩

/-- C3: the mapping/mapping merge is a shallow key-wise overwrite — the
merged mapping is `current` updated with every entry of `new`, so a key of
`new` (shared or not) gets the value of `new` wholesale (also when both
values are nested mappings) and a key only in `current` keeps its value. -/
theorem claim3_map_merge (m n : List (String × Value)) (k : String)
    (hnd : (n.map Prod.fst).Nodup) :
    mergeValues (.vmap m) (.vmap n) = .ok (.vmap (dictUpdate m n)) ∧
    alookup (dictUpdate m n) k =
      (match alookup n k with
       | some v => some v
       | none => alookup m k) :=
  ⟨rfl, alookup_dictUpdate k n m hnd⟩

theorem claim3_witness :
    (mergeValues (.vmap [("x", .vint 1), ("y", .vint 2)])
        (.vmap [("y", .vint 3), ("z", .vint 4)])
      = .ok (.vmap (dictUpdate [("x", .vint 1), ("y", .vint 2)]
          [("y", .vint 3), ("z", .vint 4)])) ∧
    alookup (dictUpdate [("x", .vint 1), ("y", .vint 2)]
        [("y", .vint 3), ("z", .vint 4)]) "y"
      = (match alookup [("y", Value.vint 3), ("z", Value.vint 4)] "y" with
         | some v => some v
         | none => alookup [("x", Value.vint 1), ("y", Value.vint 2)] "y")) ∧
    dictUpdate [("x", Value.vint 1), ("y", Value.vint 2)]
        [("y", Value.vint 3), ("z", Value.vint 4)]
      = [("x", .vint 1), ("y", .vint 3), ("z", .vint 4)] :=
  ⟨claim3_map_merge [("x", .vint 1), ("y", .vint 2)]
      [("y", .vint 3), ("z", .vint 4)] "y" (by decide), rfl⟩

/-- C4: the sequence/sequence merge concatenates the current elements then
the new elements; in a two-layer hierarchy where base and leaf bind the
same key to sequences, the merged sequence is base-then-leaf. -/
theorem claim4_seq_merge :
    (∀ xs ys : List Value,
      mergeValues (.vlist xs) (.vlist ys) = .ok (.vlist (xs ++ ys))) ∧
    (∀ xs ys : List Value,
      mergeConfigData "base" [exA, exB]
        [(exA, .vmap [("seq", .vlist ys)]), (exB, .vmap [("seq", .vlist xs)])]
        = .ok (.vmap [("seq", .vlist (xs ++ ys))])) :=
  ⟨fun _ _ => rfl, fun _ _ => rfl⟩

/-- C5: for a layer and a configured key path, a path present in the tree
of the layer is rewritten to the directory of the declaring layer joined
with the stored value, and an absent path leaves the tree unchanged. -/
theorem claim5_relative_paths (layer : PyPath) (data : Value)
    (path : List String) :
    (containsPath data path = .ok false →
      resolveLayerPath layer data path = .ok data) ∧
    (∀ s : String, path ≠ [] → containsPath data path = .ok true →
      getValueForPath data path = .ok (.vstr s) →
      ∃ data2, resolveLayerPath layer data path = .ok data2 ∧
        getValueForPath data2 path
          = .ok (.vpath (pathJoin (pathParent layer) (parsePath s)))) := by
  constructor
  · intro h
    simp [resolveLayerPath, h]
  · intro s hne hc hg
    obtain ⟨d2, hset⟩ := contains_true_set path data
      (.vpath (pathJoin (pathParent layer) (parsePath s))) hne hc
    refine ⟨d2, ?_, set_true_get path data _ d2 hset⟩
    simp only [resolveLayerPath, hc, hg, hset]

theorem claim5_witness :
    (∃ data2, resolveLayerPath ⟨true, ["a", "base.yml"]⟩
        (.vmap [("f", .vstr "data.bin")]) ["f"] = .ok data2 ∧
      getValueForPath data2 ["f"]
        = .ok (.vpath (pathJoin (pathParent ⟨true, ["a", "base.yml"]⟩)
            (parsePath "data.bin")))) ∧
    resolveLayerPath ⟨true, ["a", "base.yml"]⟩ (.vmap [("g", .vint 1)]) ["f"]
      = .ok (.vmap [("g", .vint 1)]) :=
  ⟨(claim5_relative_paths ⟨true, ["a", "base.yml"]⟩
      (.vmap [("f", .vstr "data.bin")]) ["f"]).2 "data.bin" (by simp) rfl rfl,
   (claim5_relative_paths ⟨true, ["a", "base.yml"]⟩
      (.vmap [("g", .vint 1)]) ["f"]).1 rfl⟩

/-- C6: after a successful discovery from the fresh state, the ordered
layer list starts with the requested file, contains each identity at most
once, and has exactly the key set of the layer tree map. -/
theorem claim6_discovery_invariants (fs : FS) (pk : String) (fuel : Nat)
    (file : PyPath) (st : LoadState)
    (h : recursiveLoad fs pk fuel file initState = .ok st) :
    st.layers.head? = some file ∧ st.layers.Nodup ∧
      (∀ p, p ∈ st.layers ↔ (alookup st.layerData p).isSome) := by
  have hInv0 : InvSt initState := by
    refine ⟨List.nodup_nil, ?_⟩
    intro p
    simp [initState, alookup]
  obtain ⟨hInv, ext, hext, hhead⟩ :=
    recursiveLoad_inv fs pk fuel file initState st hInv0 h
  refine ⟨?_, hInv.1, hInv.2⟩
  have h2 := hhead (by simp [initState])
  rw [hext]
  simpa [initState] using h2

theorem claim6_witness :
    (([exD] : List PyPath).head? = some exD) ∧
    ([exD] : List PyPath).Nodup ∧
    (∀ p, p ∈ ([exD] : List PyPath) ↔
      (alookup [(exD, Value.vmap exTreeD)] p).isSome) :=
  claim6_discovery_invariants exSingleFS "base" 1 exD
    ⟨[exD], [(exD, .vmap exTreeD)], 0⟩ rfl

/-- C7: discovery raises `InvalidConfiguration` when the referenced file is
missing, when the parsed root is not a mapping, and when the
parent-reference value is neither a string nor a list; a missing root file
also makes the whole `load` fail, so no merged result is produced. -/
theorem claim7_discovery_errors (fs : FS) (pk : String) (fuel : Nat)
    (file : PyPath) (st : LoadState) (hmem : file ∉ st.layers) :
    (alookup fs file = none →
      isInvalidConfig (recursiveLoad fs pk (fuel + 1) file st) = true) ∧
    (∀ v, alookup fs file = some v → v.isMap = false →
      isInvalidConfig (recursiveLoad fs pk (fuel + 1) file st) = true) ∧
    (∀ m pv, alookup fs file = some (.vmap m) → alookup m pk = some pv →
      pv.isStr = false → pv.isList = false →
      isInvalidConfig (recursiveLoad fs pk (fuel + 1) file st) = true) ∧
    (∀ relKeys, alookup fs file = none →
      isInvalidConfig (load pk relKeys fs (fuel + 1) file) = true) := by
  refine ⟨?_, ?_, ?_, ?_⟩
  · intro h
    simp [recursiveLoad, if_neg hmem, h, isInvalidConfig]
  · intro v hv hnm
    simp only [recursiveLoad, if_neg hmem, hv]
    cases v with
    | vmap m => simp [Value.isMap] at hnm
    | vstr s => rfl
    | vint n => rfl
    | vbool b => rfl
    | vnull => rfl
    | vpath p => rfl
    | vlist xs => rfl
  · intro m pv hm hpv h1 h2
    simp only [recursiveLoad, if_neg hmem, hm, hpv]
    cases pv with
    | vstr s => simp [Value.isStr] at h1
    | vlist xs => simp [Value.isList] at h2
    | vmap m2 => rfl
    | vint n => rfl
    | vbool b => rfl
    | vnull => rfl
    | vpath p => rfl
  · intro relKeys h
    have h1 : recursiveLoad fs pk (fuel + 1) file initState
        = .error (.invalidConfiguration "Config file does not exist") := by
      simp [recursiveLoad, initState, h]
    simp [load, h1, isInvalidConfig]

theorem claim7_witness :
    isInvalidConfig (recursiveLoad exSingleFS "base" 1 exA initState) = true ∧
    isInvalidConfig
      (recursiveLoad [(exA, Value.vlist [])] "base" 1 exA initState) = true ∧
    isInvalidConfig
      (recursiveLoad [(exA, Value.vmap [("base", Value.vint 1)])] "base" 1
        exA initState) = true ∧
    isInvalidConfig (load "base" [] exSingleFS 1 exA) = true :=
  ⟨(claim7_discovery_errors exSingleFS "base" 0 exA initState
      (by simp [initState])).1 rfl,
   (claim7_discovery_errors [(exA, .vlist [])] "base" 0 exA initState
      (by simp [initState])).2.1 (.vlist []) rfl rfl,
   (claim7_discovery_errors [(exA, .vmap [("base", .vint 1)])] "base" 0 exA
      initState (by simp [initState])).2.2.1 [("base", .vint 1)] (.vint 1)
      rfl rfl rfl rfl,
   (claim7_discovery_errors exSingleFS "base" 0 exA initState
      (by simp [initState])).2.2.2 [] rfl⟩

/-- C8: a layer identity reached a second time is skipped — one warning,
no re-parse, no re-append, no error; in the concrete diamond hierarchy
discovery succeeds, the shared base `d.yml` appears once in the layer list
and tree map, and its sequence contributes exactly once to the merged
result. -/
theorem claim8_diamond :
    (∀ (fs : FS) (pk : String) (fuel : Nat) (file : PyPath) (st : LoadState),
      file ∈ st.layers →
      recursiveLoad fs pk (fuel + 1) file st
        = .ok { st with warnings := st.warnings + 1 }) ∧
    recursiveLoad diamondFS "base" 10 exA initState
      = .ok ⟨[exA, exB, exD, exC],
          [(exA, .vmap exTreeA), (exB, .vmap exTreeB),
           (exD, .vmap exTreeD), (exC, .vmap exTreeC)], 1⟩ ∧
    load "base" [] diamondFS 10 exA
      = .ok (.vmap [("xs", .vlist [.vint 2, .vint 0, .vint 1, .vint 3])]) := by
  refine ⟨?_, rfl, rfl⟩
  intro fs pk fuel file st hmem
  simp [recursiveLoad, if_pos hmem]

theorem claim8_witness :
    recursiveLoad diamondFS "base" 1 exD ⟨[exD], [], 0⟩ = .ok ⟨[exD], [], 1⟩ :=
  claim8_diamond.1 diamondFS "base" 0 exD ⟨[exD], [], 0⟩ (by decide)

/-- C9: the merged tree of every successful `load` lacks the
parent-reference key at its top level, and a single-layer merge returns
the seed tree unchanged except that the parent key is removed. -/
theorem claim9_no_parent_key :
    (∀ (pk : String) (relKeys : List (List String)) (fs : FS) (fuel : Nat)
        (file : PyPath) (d : Value),
      load pk relKeys fs fuel file = .ok d → topHas d pk = false) ∧
    (∀ (pk : String) (f : PyPath) (m : List (String × Value))
        (layerData : List (PyPath × Value)),
      alookup layerData f = some (.vmap m) →
      mergeConfigData pk [f] layerData = .ok (.vmap (aerase m pk))) :=
  ⟨load_no_pk, mergeConfigData_single⟩

theorem claim9_witness :
    topHas (.vmap [("xs", .vlist [.vint 2, .vint 0, .vint 1, .vint 3])])
      "base" = false ∧
    mergeConfigData "base" [exD]
        [(exD, .vmap [("base", .vstr "x.yml"), ("k", .vint 7)])]
      = .ok (.vmap (aerase [("base", Value.vstr "x.yml"), ("k", Value.vint 7)]
          "base")) :=
  ⟨claim9_no_parent_key.1 "base" [] diamondFS 10 exA
      (.vmap [("xs", .vlist [.vint 2, .vint 0, .vint 1, .vint 3])]) rfl,
   claim9_no_parent_key.2 "base" exD
      [("base", .vstr "x.yml"), ("k", .vint 7)]
      [(exD, .vmap [("base", .vstr "x.yml"), ("k", .vint 7)])] rfl⟩

/-- C10 counterexample: on the mapping tree with the scalar 5 at key `a`,
writing path `a.b` raises a `TypeError` (`"b" in 5`) instead of returning
`False`. -/
theorem claim10_counterexample :
    setValueForPath (.vmap [("a", .vint 5)]) ["a", "b"] (.vint 0)
      = .error .typeError := rfl

/-- C10 (amended): for every tree, nonempty key path and value, the
path-write never creates keys: a `False` return leaves the tree completely
unchanged, a `True` return happens exactly when the full path pre-exists
through mappings and then rewrites exactly that path, a failing membership
test returns `False` with the tree unchanged, and a walk that reaches a
non-mapping value raises a `TypeError` instead of returning `False`. -/
theorem claim10_frame (data : Value) (path : List String) (v : Value)
    (hne : path ≠ []) :
    (∀ d2, setValueForPath data path v = .ok (d2, false) → d2 = data) ∧
    (∀ d2, setValueForPath data path v = .ok (d2, true) →
      containsPath data path = .ok true ∧ getValueForPath d2 path = .ok v) ∧
    (containsPath data path = .ok true →
      ∃ d2, setValueForPath data path v = .ok (d2, true)) ∧
    (containsPath data path = .ok false →
      setValueForPath data path v = .ok (data, false)) :=
  ⟨fun d2 h => set_false_unchanged path data v d2 h,
   fun d2 h => ⟨set_true_contains path data v d2 h,
     set_true_get path data v d2 h⟩,
   fun h => contains_true_set path data v hne h,
   fun h => contains_false_set path data v hne h⟩

theorem claim10_witness :
    (∃ d2, setValueForPath (.vmap [("a", .vint 5)]) ["a"] (.vint 7)
      = .ok (d2, true)) ∧
    setValueForPath (.vmap [("a", .vint 5)]) ["b"] (.vint 7)
      = .ok (.vmap [("a", .vint 5)], false) :=
  ⟨(claim10_frame (.vmap [("a", .vint 5)]) ["a"] (.vint 7) (by simp)).2.2.1 rfl,
   (claim10_frame (.vmap [("a", .vint 5)]) ["b"] (.vint 7) (by simp)).2.2.2 rfl⟩
